import Mathlib

/-!
Verification of the `lfshook` rotating-file logging hook (`lfshook.go`).

The Go source is shallowly embedded: the filesystem is a map from path
strings to byte-list file contents together with explicit success flags for
the fallible `os.Rename` and `os.OpenFile` calls; `fmt.Sprintf("%s.%d", p, i)`
is embedded as string append of the decimal representation; the write
syscall's actual byte count and error are explicit arguments, since the
operating system chooses them.  Machine integers (`int`, `int64`) are
embedded as `Nat`: every value the source stores in them is non-negative
and far below 2^63 in the scenarios the claims quantify over.
-/

namespace Lfshook

/-! ### Decimal printing: injectivity of `Nat.repr` on positive numbers

The backup paths `path.1`, `path.2`, ... are produced with
`fmt.Sprintf("%s.%d", path, i)`; reasoning about renames between them
requires that distinct indices give distinct path strings. -/

theorem toDigitsCore_append (f n : Nat) (acc : List Char) :
    Nat.toDigitsCore 10 f n acc = Nat.toDigitsCore 10 f n [] ++ acc := by
  induction f generalizing n acc with
  | zero => simp [Nat.toDigitsCore]
  | succ f ih =>
    simp only [Nat.toDigitsCore]
    by_cases h : n / 10 = 0
    · simp [h]
    · simp only [h, if_false]
      rw [ih (n / 10) (Nat.digitChar (n % 10) :: acc), ih (n / 10) [Nat.digitChar (n % 10)]]
      simp

theorem toDigitsCore_eq_digits (f : Nat) : ∀ n, 0 < n → n < f →
    Nat.toDigitsCore 10 f n [] = ((Nat.digits 10 n).reverse.map Nat.digitChar) := by
  induction f with
  | zero => intro n _ h; omega
  | succ f ih =>
    intro n hpos hlt
    rw [Nat.digits_def' (by norm_num : (1:Nat) < 10) hpos]
    simp only [Nat.toDigitsCore]
    by_cases h : n / 10 = 0
    · have hd : Nat.digits 10 (n / 10) = [] := by rw [h]; simp
      simp [h, hd]
    · rw [if_neg h, toDigitsCore_append]
      have hdiv : n / 10 < f :=
        lt_of_lt_of_le (Nat.div_lt_self hpos (by norm_num)) (Nat.lt_succ_iff.mp hlt)
      rw [ih (n / 10) (Nat.pos_of_ne_zero h) hdiv]
      simp

theorem digitChar_inj {a b : Nat} (ha : a < 10) (hb : b < 10)
    (h : Nat.digitChar a = Nat.digitChar b) : a = b := by
  have key : ∀ x y : Fin 10, Nat.digitChar x = Nat.digitChar y → x = y := by decide
  simpa using congrArg Fin.val (key ⟨a, ha⟩ ⟨b, hb⟩ h)

theorem map_digitChar_inj : ∀ {l1 l2 : List Nat}, (∀ x ∈ l1, x < 10) → (∀ x ∈ l2, x < 10) →
    l1.map Nat.digitChar = l2.map Nat.digitChar → l1 = l2 := by
  intro l1
  induction l1 with
  | nil => intro l2 _ _ h; cases l2 <;> simp_all
  | cons a t ih =>
    intro l2 h1 h2 h
    cases l2 with
    | nil => simp_all
    | cons b t2 =>
      simp only [List.map_cons, List.cons.injEq] at h
      have hab := digitChar_inj (h1 a (by simp)) (h2 b (by simp)) h.1
      rw [hab, ih (fun x hx => h1 x (by simp [hx])) (fun x hx => h2 x (by simp [hx])) h.2]

theorem repr_inj_pos {m n : Nat} (hm : 0 < m) (hn : 0 < n)
    (h : Nat.repr m = Nat.repr n) : m = n := by
  unfold Nat.repr at h
  rw [List.asString_inj] at h
  unfold Nat.toDigits at h
  rw [toDigitsCore_eq_digits (m + 1) m hm (by omega),
      toDigitsCore_eq_digits (n + 1) n hn (by omega)] at h
  have hrev := map_digitChar_inj
    (fun x hx => Nat.digits_lt_base (by norm_num) (List.mem_reverse.mp hx))
    (fun x hx => Nat.digits_lt_base (by norm_num) (List.mem_reverse.mp hx)) h
  rw [List.reverse_inj] at hrev
  exact Nat.digits_inj_iff.mp hrev

/-! ### Filesystem model

Files are byte lists keyed by path strings.  `os.Rename` and `os.OpenFile`
can fail; their outcomes are the `renameOk` / `openOk` flags of the world
(the claims quantify over them where that matters). -/

/-- File contents: a list of bytes. -/
abbrev Msg := List Nat

structure World where
  files : String → Option Msg
  renameOk : Bool
  openOk : Bool

/-- Point update of the file map. -/
def setF (w : World) (p : String) (v : Option Msg) : World :=
  { w with files := fun q => if q = p then v else w.files q }

/-- `os.Stat(p)` followed by `.Size()`: the size of the file at `p`, if it
exists (sizes are byte-list lengths). -/
def statSize (w : World) (p : String) : Option Nat :=
  (w.files p).map List.length

/-- `os.RemoveAll(p)`: deletes the file; also succeeds when it is absent. -/
def removeAll (w : World) (p : String) : World := setF w p none

/-- `os.Rename(src, dst)`: moves the file when the source exists and the
call succeeds; a failing call (or a missing source) leaves the filesystem
unchanged.  The source code ignores this call's error. -/
def renameF (w : World) (src dst : String) : World :=
  if w.renameOk && (w.files src).isSome then
    setF (setF w src none) dst (w.files src)
  else w

/-- `os.OpenFile(p, O_CREATE|O_APPEND|O_RDWR, 0664)` on success: creates an
empty file when `p` is absent, otherwise leaves the filesystem unchanged. -/
def openCreate (w : World) (p : String) : World :=
  if (w.files p).isSome then w else setF w p (some [])

@[simp] theorem setF_files_self (w : World) (p : String) (v : Option Msg) :
    (setF w p v).files p = v := by simp [setF]

theorem setF_files_other (w : World) (p q : String) (v : Option Msg) (h : q ≠ p) :
    (setF w p v).files q = w.files q := by simp [setF, h]

@[simp] theorem setF_renameOk (w : World) (p : String) (v : Option Msg) :
    (setF w p v).renameOk = w.renameOk := rfl

@[simp] theorem setF_openOk (w : World) (p : String) (v : Option Msg) :
    (setF w p v).openOk = w.openOk := rfl

@[simp] theorem renameF_renameOk (w : World) (s d : String) :
    (renameF w s d).renameOk = w.renameOk := by
  unfold renameF; split <;> rfl

@[simp] theorem renameF_openOk (w : World) (s d : String) :
    (renameF w s d).openOk = w.openOk := by
  unfold renameF; split <;> rfl

theorem renameF_files_other (w : World) (s d q : String) (hs : q ≠ s) (hd : q ≠ d) :
    (renameF w s d).files q = w.files q := by
  unfold renameF
  split
  · rw [setF_files_other _ _ _ _ hd, setF_files_other _ _ _ _ hs]
  · rfl

/-- A successful rename of an existing source puts the source's file at the
destination. -/
theorem renameF_files_dst (w : World) (s d : String) (hok : w.renameOk = true)
    (hsome : (w.files s).isSome = true) : (renameF w s d).files d = w.files s := by
  unfold renameF
  rw [hok, hsome]
  simp

/-- When the destination held no file, the destination after the rename holds
the source's old file whether or not the source existed (a missing source
makes the rename a failing no-op, and then both sides are `none`). -/
theorem renameF_files_dst_of_none (w : World) (s d : String) (hok : w.renameOk = true)
    (hd : w.files d = none) : (renameF w s d).files d = w.files s := by
  unfold renameF
  rcases h : w.files s with _ | v
  · simp [hok, h, hd]
  · simp [hok]

/-- After a successful rename to a distinct destination the source is gone
(and a missing source stays missing). -/
theorem renameF_files_src (w : World) (s d : String) (hok : w.renameOk = true)
    (hne : s ≠ d) : (renameF w s d).files s = none := by
  unfold renameF
  rcases h : w.files s with _ | v
  · simpa using h
  · simp only [hok, Option.isSome_some, Bool.and_self, Bool.true_and, if_true]
    rw [setF_files_other _ _ _ _ hne]
    simp

/-! ### Backup paths: `fmt.Sprintf("%s.%d", path, i)` -/

def bakPath (path : String) (i : Nat) : String := path ++ "." ++ Nat.repr i

theorem bakPath_ne_base (path : String) (i : Nat) : bakPath path i ≠ path := by
  intro h
  have hlen := congrArg String.length h
  rw [bakPath, String.length_append, String.length_append] at hlen
  have hdot : ("." : String).length = 1 := rfl
  omega

theorem bakPath_inj (path : String) {i j : Nat} (hi : 0 < i) (hj : 0 < j)
    (h : bakPath path i = bakPath path j) : i = j := by
  apply repr_inj_pos hi hj
  have hd := congrArg String.data h
  rw [bakPath, bakPath, String.data_append, String.data_append,
      String.data_append, String.data_append] at hd
  have hrepr := List.append_cancel_left hd
  exact String.ext hrepr

theorem bakPath_ne (path : String) {i j : Nat} (hi : 0 < i) (hj : 0 < j)
    (h : i ≠ j) : bakPath path i ≠ bakPath path j :=
  fun he => h (bakPath_inj path hi hj he)

/-! ### Hook configuration and the rotation primitives -/

/-- The two rotation parameters of `LfsHook`: `FdMaxLen` (maximum number of
backups, `int`) and `FdMaxSize` (maximum file size in bytes, `int64`). -/
structure Config where
  FdMaxLen : Nat
  FdMaxSize : Nat
deriving DecidableEq

/-- Loop body of `fileBakLen`: starting at suffix `i` with `rem` loop
iterations left, count backups while `os.Stat` finds them, stopping at the
first gap (`break` on `os.IsNotExist`). -/
def fileBakLenGo (w : World) (path : String) (i : Nat) : Nat → Nat
  | 0 => 0
  | rem + 1 =>
    if (w.files (bakPath path i)).isSome then fileBakLenGo w path (i + 1) rem + 1
    else 0

/-- `fileBakLen`: the number of existing backups `path.1, path.2, ...`,
scanning suffixes `1 .. FdMaxLen` and stopping at the first gap. -/
def fileBakLen (c : Config) (w : World) (path : String) : Nat :=
  fileBakLenGo w path 1 c.FdMaxLen

/-- Loop body of `fileBakMove`: for `rem` iterations starting at `i`,
rename `path.(i+1)` onto `path.i` (rename errors are ignored). -/
def fileBakMoveGo (w : World) (path : String) (i : Nat) : Nat → World
  | 0 => w
  | rem + 1 =>
    fileBakMoveGo (renameF w (bakPath path (i + 1)) (bakPath path i)) path (i + 1) rem

/-- `fileBakMove`: delete `path.1`, then shift every `path.(i+1)` down to
`path.i` for `i = 1 .. FdMaxLen-1`. -/
def fileBakMove (c : Config) (w : World) (path : String) : World :=
  fileBakMoveGo (removeAll w (bakPath path 1)) path 1 (c.FdMaxLen - 1)

/-- The rotation arm of `fileCheck` (`fe.ln > c.FdMaxSize`), as it acts on
the filesystem: count the backups, then either shift-and-evict (chain full)
and rename the base file to the highest suffix, or rename the base file to
the next free suffix. -/
def rotateStep (c : Config) (w : World) (path : String) : World :=
  if fileBakLen c w path ≥ c.FdMaxLen then
    renameF (fileBakMove c w path) path (bakPath path (fileBakLen c w path))
  else
    renameF w path (bakPath path (fileBakLen c w path + 1))

/-! ### The per-path handle and the `fileCheck` loop -/

/-- `lfsFile`: the per-path handle — whether `fd` is non-nil, the tracked
length `ln` (`int64`), and the path.  The `sync.Mutex` field serializes
access and has no sequential content. -/
structure FileH where
  fdOpen : Bool
  ln : Nat
  path : String
deriving DecidableEq

/-- Result of `fileCheck`: the reached filesystem and handle, and whether
the call returned an open error or `nil`. -/
inductive CheckRes where
  | ok (w : World) (fe : FileH)
  | err (w : World) (fe : FileH)

/-- The `for` loop of `fileCheck`, with explicit fuel: one unit per loop
iteration, `none` when the fuel runs out.  The Go loop genuinely fails to
terminate for some filesystem outcomes (see the divergence theorem), so no
termination measure exists.
  - `fd == nil` arm: set `ln` to 0, overwrite it with the stat size when the
    file exists, then open (create) the file; an open failure returns the
    error with the handle still closed.
  - `ln > FdMaxSize` arm: close `fd` and rotate, then loop.
  - otherwise: `break`, returning `nil`. -/
def fileCheckGo (c : Config) (w : World) (fe : FileH) : Nat → Option CheckRes
  | 0 => none
  | fuel + 1 =>
    if fe.fdOpen = false then
      let ln0 := match statSize w fe.path with
        | some sz => sz
        | none => 0
      if w.openOk then
        fileCheckGo c (openCreate w fe.path) { fe with fdOpen := true, ln := ln0 } fuel
      else some (.err w { fe with ln := ln0 })
    else if fe.ln > c.FdMaxSize then
      fileCheckGo c (rotateStep c w fe.path) { fe with fdOpen := false } fuel
    else some (.ok w fe)

/-! ### The hook: dispatch, destination resolution, writes -/

/-- `logrus.Level` (a `uint32`). -/
abbrev Level := Nat

/-- Identity of an injected `io.Writer` sink. -/
abbrev SinkId := Nat

/-- The state fields of `LfsHook`.  A `none` map models a nil Go map (the
`hook.writers != nil` / `hook.paths != nil` tests in `Fire`); `fls` is the
level-keyed handle registry.  Locks carry no sequential content, and the
formatter's behaviour enters as an explicit per-call argument. The `levels`
field of the source is omitted: `Levels()` returns `logrus.AllLevels`
regardless, so it never influences behaviour. -/
structure Hook where
  paths : Option (Level → Option String)
  writers : Option (Level → Option SinkId)
  defaultPath : String
  defaultWriter : SinkId
  hasDefaultPath : Bool
  hasDefaultWriter : Bool
  FdMaxLen : Nat
  FdMaxSize : Nat
  fls : Level → Option FileH

def Hook.cfg (h : Hook) : Config := ⟨h.FdMaxLen, h.FdMaxSize⟩

/-- Go map lookup `m[k]`; a nil map contains no key. -/
def mapGet {α : Type} (m : Option (Level → Option α)) (l : Level) : Option α :=
  match m with
  | none => none
  | some f => f l

/-- `SetDefaultPath`. -/
def SetDefaultPath (h : Hook) (p : String) : Hook :=
  { h with defaultPath := p, hasDefaultPath := true }

/-- `SetDefaultWriter`. -/
def SetDefaultWriter (h : Hook) (s : SinkId) : Hook :=
  { h with defaultWriter := s, hasDefaultWriter := true }

/-- The `output interface{}` argument of `NewLfsHook`; the `default:` arm of
the type switch panics, so exactly these four shapes construct a hook. -/
inductive Output where
  | str (s : String)
  | wr (s : SinkId)
  | pmap (m : Level → Option String)
  | wmap (m : Level → Option SinkId)

/-- The hook literal built first in `NewLfsHook` (defaults: 10 backups,
10 MiB). -/
def emptyHook : Hook :=
  { paths := none, writers := none, defaultPath := "", defaultWriter := 0,
    hasDefaultPath := false, hasDefaultWriter := false,
    FdMaxLen := 10, FdMaxSize := 1024 * 1024 * 10, fls := fun _ => none }

/-- First `maxsz` guard of `NewLfsHook`: a positive `maxsz[0]` overrides
`FdMaxSize`. -/
def applySize (h : Hook) (mv : Option Int) : Hook :=
  match mv with
  | some v => if v > 0 then { h with FdMaxSize := v.toNat } else h
  | none => h

/-- Second `maxsz` guard of `NewLfsHook`: a positive `maxsz[1]` overrides
`FdMaxLen`. -/
def applyLen (h : Hook) (mv : Option Int) : Hook :=
  match mv with
  | some v => if v > 0 then { h with FdMaxLen := v.toNat } else h
  | none => h

/-- The two `maxsz` guards of `NewLfsHook` combined. -/
def applyMaxsz (h : Hook) (maxsz : List Int) : Hook :=
  applyLen (applySize h (maxsz.get? 0)) (maxsz.get? 1)

/-- `NewLfsHook(output, formatter, maxsz...)` (the formatter is not part of
the embedded state). -/
def NewLfsHook (output : Output) (maxsz : List Int) : Hook :=
  let h := applyMaxsz emptyHook maxsz
  match output with
  | .str s => SetDefaultPath h s
  | .wr s => SetDefaultWriter h s
  | .pmap m => { h with paths := some m }
  | .wmap m => { h with writers := some m }

/-- The Go error values the dispatch path can return. -/
inductive GoErr where
  | fmtErr
  | writeErr
  | openErr
deriving DecidableEq

/-- Result of `ioWrite`: the returned error, or `nil` together with what was
written to which sink (`none`: the record was dropped). -/
inductive IoRes where
  | ok (out : Option (SinkId × Msg))
  | fail (e : GoErr)
deriving DecidableEq

/-- The tail of `ioWrite` once a writer is chosen: format the entry (the
formatter's outcome is the explicit argument `fmtRes`, `none` = error),
then `writer.Write(msg)` whose error (`werr`) is returned. -/
def ioWriteTo (s : SinkId) (fmtRes : Option Msg) (werr : Bool) : IoRes :=
  match fmtRes with
  | none => .fail .fmtErr
  | some msg => if werr then .fail .writeErr else .ok (some (s, msg))

/-- `ioWrite`: resolve the writer for the level — map entry, else the
default writer, else return `nil` without writing. -/
def ioWrite (h : Hook) (lvl : Level) (fmtRes : Option Msg) (werr : Bool) : IoRes :=
  match mapGet h.writers lvl with
  | none =>
    if h.hasDefaultWriter then ioWriteTo h.defaultWriter fmtRes werr
    else .ok none
  | some s => ioWriteTo s fmtRes werr

/-- Replace the registry entry for `lvl` (the embedding of mutating the
shared `*lfsFile` that `hook.fls[lvl]` points to). -/
def updateFls (h : Hook) (lvl : Level) (fe : FileH) : Hook :=
  { h with fls := fun l => if l = lvl then some fe else h.fls l }

/-- `n, _ := fe.fd.Write(msg); fe.ln += int64(n)`: append the `n` bytes the
operating system actually wrote to the file behind the descriptor and
advance the tracked length by that actual count.  The write call's error is
discarded by the source (`_`). -/
def writeStep (w : World) (fe : FileH) (msg : Msg) (n : Nat) : World × FileH :=
  (setF w fe.path (some ((w.files fe.path).getD [] ++ msg.take n)),
   { fe with ln := fe.ln + n })

/-- Result of `fileWrite`: the returned error (or `nil`) together with the
updated hook and filesystem. -/
inductive FwRes where
  | ok (h : Hook) (w : World)
  | fail (e : GoErr) (h : Hook) (w : World)

/-- The part of `fileWrite` after a handle is in hand: `fileCheck`, then
format, then write and advance `ln`.  `n` is the actual byte count of the
`fd.Write` call and `werr` its error — which the source discards. -/
def fileWriteGo (h : Hook) (w : World) (lvl : Level) (fe : FileH)
    (fmtRes : Option Msg) (n : Nat) (_werr : Bool) (fuel : Nat) : Option FwRes :=
  match fileCheckGo (Hook.cfg h) w fe fuel with
  | none => none
  | some (.err w' fe') => some (.fail .openErr (updateFls h lvl fe') w')
  | some (.ok w' fe') =>
    match fmtRes with
    | none => some (.fail .fmtErr (updateFls h lvl fe') w')
    | some msg =>
      let r := writeStep w' fe' msg n
      some (.ok (updateFls h lvl r.2) r.1)

/-- `fileWrite`: fetch the cached handle for the level, or resolve the path
(map entry, else default path, else return `nil`: the record is dropped)
and create and register a fresh handle; then run the check-write sequence.
`os.MkdirAll` only touches directories, which the file map does not
represent. -/
def fileWrite (h : Hook) (w : World) (lvl : Level)
    (fmtRes : Option Msg) (n : Nat) (werr : Bool) (fuel : Nat) : Option FwRes :=
  match h.fls lvl with
  | some fe => fileWriteGo h w lvl fe fmtRes n werr fuel
  | none =>
    match (match mapGet h.paths lvl with
           | some p => some p
           | none => if h.hasDefaultPath then some h.defaultPath else none) with
    | none => some (.ok h w)
    | some p =>
      let fe : FileH := { fdOpen := false, ln := 0, path := p }
      fileWriteGo (updateFls h lvl fe) w lvl fe fmtRes n werr fuel

/-- Result of `Fire`: which arm ran and what it returned. -/
inductive FireRes where
  | io (r : IoRes)
  | file (r : FwRes)
  | nilRes

/-- `Fire`: writer configuration (map or default) takes priority; then path
configuration; a hook with neither returns `nil`. -/
def Fire (h : Hook) (w : World) (lvl : Level) (fmtRes : Option Msg)
    (n : Nat) (werr : Bool) (fuel : Nat) : Option FireRes :=
  if h.writers.isSome || h.hasDefaultWriter then
    some (.io (ioWrite h lvl fmtRes werr))
  else if h.paths.isSome || h.hasDefaultPath then
    (fileWrite h w lvl fmtRes n werr fuel).map .file
  else some .nilRes

/-! ### Drivers and claim-side predicates -/

/-- A sequence of writes through one handle: each element is the formatted
message together with the byte count the write call actually wrote.  Each
step is the `fileCheck`-then-write path of `fileWrite` on that handle. -/
def runWrites (c : Config) (fuel : Nat) (w : World) (fe : FileH) :
    List (Msg × Nat) → Option (World × FileH)
  | [] => some (w, fe)
  | (msg, n) :: ops =>
    match fileCheckGo c w fe fuel with
    | some (.ok w' fe') =>
      let r := writeStep w' fe' msg n
      runWrites c fuel r.1 r.2 ops
    | _ => none

/-- A sequence of rotations of the base file at `p`: each rotation (the
`ln > FdMaxSize` arm of `fileCheck`) is followed by the base file being
recreated and refilled with the next content, as subsequent appends do. -/
def runRotations (c : Config) (p : String) (w : World) : List Msg → World
  | [] => w
  | b :: bs => runRotations c p (setF (rotateStep c w p) p (some b)) bs

/-- The backups of `p` form a gap-free chain `p.1 .. p.k` and nothing
beyond. -/
def bakChain (w : World) (p : String) (k : Nat) : Prop :=
  (∀ i, 1 ≤ i → i ≤ k → (w.files (bakPath p i)).isSome = true) ∧
  (∀ i, k < i → w.files (bakPath p i) = none)

/-- Spec side: "path-mode is active" — some path configuration exists. -/
def pathModeActive (h : Hook) : Prop := h.paths.isSome = true ∨ h.hasDefaultPath = true

/-- Spec side: "sink-mode is active" — some writer configuration exists. -/
def sinkModeActive (h : Hook) : Prop := h.writers.isSome = true ∨ h.hasDefaultWriter = true

/-- Spec side: exactly one of the two modes is active. -/
def exactlyOneMode (h : Hook) : Prop :=
  (pathModeActive h ∧ ¬ sinkModeActive h) ∨ (sinkModeActive h ∧ ¬ pathModeActive h)

/-- Hook states reachable through the exported API: construction, the
default setters, and `Fire` (`SetFormatter` does not touch these fields). -/
inductive Reachable : Hook → Prop where
  | new (output : Output) (maxsz : List Int) : Reachable (NewLfsHook output maxsz)
  | setPath {h} (p : String) : Reachable h → Reachable (SetDefaultPath h p)
  | setWriter {h} (s : SinkId) : Reachable h → Reachable (SetDefaultWriter h s)
  | fireOk {h h'} (w : World) (lvl : Level) (fmtRes : Option Msg) (n : Nat)
      (werr : Bool) (fuel : Nat) (w' : World) : Reachable h →
      Fire h w lvl fmtRes n werr fuel = some (.file (.ok h' w')) → Reachable h'
  | fireFail {h h'} (w : World) (lvl : Level) (fmtRes : Option Msg) (n : Nat)
      (werr : Bool) (fuel : Nat) (e : GoErr) (w' : World) : Reachable h →
      Fire h w lvl fmtRes n werr fuel = some (.file (.fail e h' w')) → Reachable h'

/-- The `fileCheck` loop never returns, whatever the fuel. -/
def divergesCheck (c : Config) (w : World) (fe : FileH) : Prop :=
  ∀ fuel, fileCheckGo c w fe fuel = none

/-- Observable projection: the error value a completed `Fire` returned
(`none` both for `nil` results and for fuel exhaustion — pair it with
`fireDone` to tell the two apart). -/
def fireErr : Option FireRes → Option GoErr
  | some (.io (.fail e)) => some e
  | some (.file (.fail e _ _)) => some e
  | _ => none

/-- Observable projection: `Fire` completed (did not run out of fuel). -/
def fireDone (r : Option FireRes) : Bool := r.isSome

/-- Observable projection: the tracked length of the handle a completed
handle-level run ended with. -/
def runLn (r : Option (World × FileH)) : Option Nat := r.map fun x => x.2.ln

/-- Observable projection: a file of the world a completed handle-level run
ended with. -/
def runFileAt (r : Option (World × FileH)) (p : String) : Option (Option Msg) :=
  r.map fun x => x.1.files p

/-! ### Step lemmas for the `fileCheck` loop -/

theorem fileCheckGo_break (c : Config) (w : World) (fe : FileH) (fuel : Nat)
    (hopen : fe.fdOpen = true) (hln : fe.ln ≤ c.FdMaxSize) :
    fileCheckGo c w fe (fuel + 1) = some (.ok w fe) := by
  conv_lhs => unfold fileCheckGo
  rw [if_neg (by simp [hopen]), if_neg (by omega)]

theorem fileCheckGo_rotate (c : Config) (w : World) (fe : FileH) (fuel : Nat)
    (hopen : fe.fdOpen = true) (hln : fe.ln > c.FdMaxSize) :
    fileCheckGo c w fe (fuel + 1) =
      fileCheckGo c (rotateStep c w fe.path) { fe with fdOpen := false } fuel := by
  conv_lhs => unfold fileCheckGo
  rw [if_neg (by simp [hopen]), if_pos hln]

theorem fileCheckGo_open (c : Config) (w : World) (fe : FileH) (fuel : Nat)
    (hclosed : fe.fdOpen = false) (hok : w.openOk = true) :
    fileCheckGo c w fe (fuel + 1) =
      fileCheckGo c (openCreate w fe.path)
        { fe with fdOpen := true, ln := (statSize w fe.path).getD 0 } fuel := by
  conv_lhs => unfold fileCheckGo
  rw [if_pos hclosed, if_pos hok]
  rcases h : statSize w fe.path with _ | sz <;> simp [h]

theorem fileCheckGo_openFail (c : Config) (w : World) (fe : FileH) (fuel : Nat)
    (hclosed : fe.fdOpen = false) (hbad : w.openOk = false) :
    fileCheckGo c w fe (fuel + 1) =
      some (.err w { fe with ln := (statSize w fe.path).getD 0 }) := by
  conv_lhs => unfold fileCheckGo
  rw [if_pos hclosed, if_neg (by simp [hbad])]
  rcases h : statSize w fe.path with _ | sz <;> simp [h]

/-- Ensure-open on a closed handle whose file does not exist: the tracked
length starts at 0 and the loop exits with a freshly created empty file. -/
theorem fileCheckGo_open_fresh (c : Config) (w : World) (fe : FileH) (fuel : Nat)
    (hclosed : fe.fdOpen = false) (hok : w.openOk = true)
    (hnone : w.files fe.path = none) :
    fileCheckGo c w fe (fuel + 2) =
      some (.ok (openCreate w fe.path) ⟨true, 0, fe.path⟩) := by
  obtain ⟨fb, fln, fp⟩ := fe
  simp only at hclosed
  subst hclosed
  rw [show fuel + 2 = (fuel + 1) + 1 by omega, fileCheckGo_open c w _ _ rfl hok]
  have hstat : statSize w fp = none := by unfold statSize; rw [hnone]; rfl
  rw [hstat]
  exact fileCheckGo_break _ _ _ _ rfl (Nat.zero_le _)

/-! ### Effect lemmas for the rotation primitives -/

@[simp] theorem openCreate_renameOk (w : World) (p : String) :
    (openCreate w p).renameOk = w.renameOk := by
  unfold openCreate; split <;> rfl

@[simp] theorem openCreate_openOk (w : World) (p : String) :
    (openCreate w p).openOk = w.openOk := by
  unfold openCreate; split <;> rfl

theorem openCreate_files_self (w : World) (p : String) :
    (openCreate w p).files p = some ((w.files p).getD []) := by
  unfold openCreate
  rcases h : w.files p with _ | v <;> simp [h]

theorem openCreate_files_other (w : World) (p q : String) (h : q ≠ p) :
    (openCreate w p).files q = w.files q := by
  unfold openCreate
  split
  · rfl
  · exact setF_files_other _ _ _ _ h

theorem openCreate_of_present (w : World) (p : String) (h : (w.files p).isSome = true) :
    openCreate w p = w := by
  unfold openCreate
  rw [if_pos h]

theorem fileBakMoveGo_renameOk (p : String) :
    ∀ (rem i : Nat) (w : World), (fileBakMoveGo w p i rem).renameOk = w.renameOk := by
  intro rem
  induction rem with
  | zero => intro i w; rfl
  | succ rem ih => intro i w; rw [fileBakMoveGo, ih]; simp

theorem fileBakMoveGo_openOk (p : String) :
    ∀ (rem i : Nat) (w : World), (fileBakMoveGo w p i rem).openOk = w.openOk := by
  intro rem
  induction rem with
  | zero => intro i w; rfl
  | succ rem ih => intro i w; rw [fileBakMoveGo, ih]; simp

/-- `fileBakMove` only renames among backup suffixes: the base file is
untouched. -/
theorem fileBakMoveGo_files_base (p : String) :
    ∀ (rem i : Nat) (w : World), 1 ≤ i → (fileBakMoveGo w p i rem).files p = w.files p := by
  intro rem
  induction rem with
  | zero => intro i w _; rfl
  | succ rem ih =>
    intro i w hi
    rw [fileBakMoveGo, ih _ _ (by omega),
        renameF_files_other _ _ _ _ (Ne.symm (bakPath_ne_base p (i + 1)))
          (Ne.symm (bakPath_ne_base p i))]

@[simp] theorem rotateStep_renameOk (c : Config) (w : World) (p : String) :
    (rotateStep c w p).renameOk = w.renameOk := by
  unfold rotateStep fileBakMove removeAll
  split <;> simp [fileBakMoveGo_renameOk]

@[simp] theorem rotateStep_openOk (c : Config) (w : World) (p : String) :
    (rotateStep c w p).openOk = w.openOk := by
  unfold rotateStep fileBakMove removeAll
  split <;> simp [fileBakMoveGo_openOk]

/-- When renames succeed, a rotation always removes the base file (whichever
branch ran, the base is renamed to some backup suffix). -/
theorem rotateStep_base_gone (c : Config) (w : World) (p : String)
    (hok : w.renameOk = true) : (rotateStep c w p).files p = none := by
  unfold rotateStep
  split
  · apply renameF_files_src
    · rw [fileBakMove, fileBakMoveGo_renameOk, removeAll, setF_renameOk]; exact hok
    · exact Ne.symm (bakPath_ne_base p _)
  · exact renameF_files_src w p _ hok (Ne.symm (bakPath_ne_base p _))

/-- After a successful rotation, re-running ensure-open finds no base file,
creates a fresh empty one and resets the tracked length to 0; the loop then
exits.  This is the rotate–reopen–break tail of every rotating `fileCheck`
call. -/
theorem fileCheckGo_rotate_reopen (c : Config) (w : World) (fe : FileH) (fuel : Nat)
    (hopen : fe.fdOpen = true) (hln : fe.ln > c.FdMaxSize)
    (hrok : w.renameOk = true) (hook : w.openOk = true) :
    fileCheckGo c w fe (fuel + 3) =
      some (.ok (openCreate (rotateStep c w fe.path) fe.path)
        { fdOpen := true, ln := 0, path := fe.path }) := by
  obtain ⟨fb, fln, fp⟩ := fe
  simp only at hopen hln
  subst hopen
  rw [show fuel + 3 = (fuel + 2) + 1 by omega,
      fileCheckGo_rotate c w _ _ rfl hln]
  rw [show fuel + 2 = (fuel + 1) + 1 by omega,
      fileCheckGo_open c _ _ _ rfl (by simp [hook])]
  have hgone : (rotateStep c w fp).files fp = none := rotateStep_base_gone c w fp hrok
  have hstat : statSize (rotateStep c w fp) fp = none := by
    unfold statSize; rw [hgone]; rfl
  rw [hstat]
  exact fileCheckGo_break _ _ _ _ rfl (Nat.zero_le _)

/-! ### The backup chain under rotation -/

/-- The scan of `fileBakLen` counts a gap-free run: if backups exist at the
`a` suffixes starting at `i` and not at suffix `i + a`, the loop starting at
`i` with `rem` iterations left returns `min a rem`. -/
theorem fileBakLenGo_spec (w : World) (p : String) : ∀ (rem i a : Nat),
    (∀ j, i ≤ j → j < i + a → (w.files (bakPath p j)).isSome = true) →
    w.files (bakPath p (i + a)) = none →
    fileBakLenGo w p i rem = min a rem := by
  intro rem
  induction rem with
  | zero => intro i a _ _; simp [fileBakLenGo]
  | succ rem ih =>
    intro i a hex hgap
    rcases a with _ | a
    · have h0 : (w.files (bakPath p i)).isSome = false := by
        rw [show i = i + 0 by omega] at hgap ⊢
        rw [hgap]; rfl
      rw [fileBakLenGo, if_neg (by simp [h0])]
      simp
    · have hi : (w.files (bakPath p i)).isSome = true := hex i (le_refl i) (by omega)
      rw [fileBakLenGo, if_pos hi,
          ih (i + 1) a (fun j h1 h2 => hex j (by omega) (by omega))
            (by rw [show i + 1 + a = i + (a + 1) by omega]; exact hgap)]
      omega

/-- On a gap-free chain of `k ≤ FdMaxLen` backups, `fileBakLen` returns
exactly `k`. -/
theorem fileBakLen_chain (c : Config) (w : World) (p : String) (k : Nat)
    (hchain : bakChain w p k) (hk : k ≤ c.FdMaxLen) : fileBakLen c w p = k := by
  rw [fileBakLen,
      fileBakLenGo_spec w p c.FdMaxLen 1 k
        (fun j h1 h2 => hchain.1 j h1 (by omega))
        (by rw [show 1 + k = k + 1 by omega]; exact hchain.2 (k + 1) (by omega))]
  omega

/-- Effect of the shift loop of `fileBakMove`: starting at suffix `i` (known
absent) with `rem` iterations, every suffix in `[i, i+rem)` receives the
file previously one suffix higher, suffix `i+rem` is vacated, and all other
suffixes — and the base file — are untouched. -/
theorem fileBakMoveGo_spec (p : String) : ∀ (rem i : Nat) (w : World),
    w.renameOk = true → 1 ≤ i → w.files (bakPath p i) = none →
    (∀ q, 1 ≤ q → q < i →
        (fileBakMoveGo w p i rem).files (bakPath p q) = w.files (bakPath p q)) ∧
    (∀ q, i ≤ q → q < i + rem →
        (fileBakMoveGo w p i rem).files (bakPath p q) = w.files (bakPath p (q + 1))) ∧
    ((fileBakMoveGo w p i rem).files (bakPath p (i + rem)) = none) ∧
    (∀ q, i + rem < q →
        (fileBakMoveGo w p i rem).files (bakPath p q) = w.files (bakPath p q)) := by
  intro rem
  induction rem with
  | zero =>
    intro i w _ _ hnone
    exact ⟨fun q _ _ => rfl, fun q h1 h2 => by omega,
      by rw [show i + 0 = i by omega]; exact hnone, fun q _ => rfl⟩
  | succ rem ih =>
    intro i w hok hi hnone
    have hne_succ : bakPath p (i + 1) ≠ bakPath p i :=
      bakPath_ne p (by omega) (by omega) (by omega)
    have h1 : (renameF w (bakPath p (i + 1)) (bakPath p i)).renameOk = true := by
      rw [renameF_renameOk]; exact hok
    have hsrc : (renameF w (bakPath p (i + 1)) (bakPath p i)).files (bakPath p (i + 1)) = none :=
      renameF_files_src w _ _ hok hne_succ
    have hdst : (renameF w (bakPath p (i + 1)) (bakPath p i)).files (bakPath p i) =
        w.files (bakPath p (i + 1)) :=
      renameF_files_dst_of_none w _ _ hok hnone
    have hother : ∀ q, 1 ≤ q → q ≠ i → q ≠ i + 1 →
        (renameF w (bakPath p (i + 1)) (bakPath p i)).files (bakPath p q) =
          w.files (bakPath p q) := fun q hq hqi hqi1 =>
      renameF_files_other _ _ _ _ (bakPath_ne p hq (by omega) hqi1)
        (bakPath_ne p hq (by omega) hqi)
    obtain ⟨S1, S2, S3, S4⟩ := ih (i + 1) _ h1 (by omega) hsrc
    rw [fileBakMoveGo]
    refine ⟨fun q hq1 hq2 => ?_, fun q hq1 hq2 => ?_, ?_, fun q hq => ?_⟩
    · rw [S1 q hq1 (by omega), hother q hq1 (by omega) (by omega)]
    · rcases Nat.eq_or_lt_of_le hq1 with heq | hlt
      · subst heq
        rw [S1 i (by omega) (by omega), hdst]
      · rw [S2 q (by omega) (by omega), hother (q + 1) (by omega) (by omega) (by omega)]
    · rw [show i + (rem + 1) = i + 1 + rem by omega]
      exact S3
    · rw [S4 q (by omega), hother q (by omega) (by omega) (by omega)]

/-- Rotation on a chain that is not yet full: the base file is renamed to
the next free suffix `k+1`, the existing backups stay where they are, and
the base file is gone. -/
theorem rotateStep_notfull (c : Config) (w : World) (p : String) (k : Nat) (b : Msg)
    (hok : w.renameOk = true) (hchain : bakChain w p k) (hklt : k < c.FdMaxLen)
    (hb : w.files p = some b) :
    (rotateStep c w p).files (bakPath p (k + 1)) = some b ∧
    (∀ i, 1 ≤ i → i ≤ k → (rotateStep c w p).files (bakPath p i) = w.files (bakPath p i)) ∧
    (∀ i, k + 1 < i → (rotateStep c w p).files (bakPath p i) = none) ∧
    (rotateStep c w p).files p = none := by
  have hlen : fileBakLen c w p = k := fileBakLen_chain c w p k hchain (by omega)
  have hrw : rotateStep c w p = renameF w p (bakPath p (k + 1)) := by
    unfold rotateStep
    rw [hlen, if_neg (by omega)]
  rw [hrw]
  refine ⟨?_, fun i h1 h2 => ?_, fun i hgt => ?_, ?_⟩
  · rw [renameF_files_dst w p _ hok (by rw [hb]; rfl), hb]
  · exact renameF_files_other _ _ _ _ (bakPath_ne_base p i)
      (bakPath_ne p h1 (by omega) (by omega))
  · rw [renameF_files_other _ _ _ _ (bakPath_ne_base p i)
        (bakPath_ne p (by omega) (by omega) (by omega))]
    exact hchain.2 i (by omega)
  · exact renameF_files_src w p _ hok (Ne.symm (bakPath_ne_base p _))

/-- Rotation on a full chain: suffix 1 (the oldest backup) is evicted, every
other backup moves one suffix down, the base file lands at the highest
suffix `FdMaxLen`, and the base file is gone. -/
theorem rotateStep_full (c : Config) (w : World) (p : String) (b : Msg)
    (hok : w.renameOk = true) (hmax : 1 ≤ c.FdMaxLen)
    (hchain : bakChain w p c.FdMaxLen) (hb : w.files p = some b) :
    (rotateStep c w p).files (bakPath p c.FdMaxLen) = some b ∧
    (∀ i, 1 ≤ i → i < c.FdMaxLen →
        (rotateStep c w p).files (bakPath p i) = w.files (bakPath p (i + 1))) ∧
    (∀ i, c.FdMaxLen < i → (rotateStep c w p).files (bakPath p i) = none) ∧
    (rotateStep c w p).files p = none := by
  have hlen : fileBakLen c w p = c.FdMaxLen :=
    fileBakLen_chain c w p c.FdMaxLen hchain (le_refl _)
  have hrw : rotateStep c w p = renameF (fileBakMove c w p) p (bakPath p c.FdMaxLen) := by
    unfold rotateStep
    rw [hlen, if_pos (le_refl _)]
  obtain ⟨S1, S2, S3, S4⟩ :=
    fileBakMoveGo_spec p (c.FdMaxLen - 1) 1 (removeAll w (bakPath p 1))
      (by rw [removeAll, setF_renameOk]; exact hok) (le_refl 1)
      (by rw [removeAll, setF_files_self])
  have hmv : fileBakMove c w p = fileBakMoveGo (removeAll w (bakPath p 1)) p 1 (c.FdMaxLen - 1) :=
    rfl
  have hmrok : (fileBakMove c w p).renameOk = true := by
    rw [hmv, fileBakMoveGo_renameOk, removeAll, setF_renameOk]; exact hok
  have hmbase : (fileBakMove c w p).files p = some b := by
    rw [hmv, fileBakMoveGo_files_base p _ 1 _ (le_refl 1), removeAll,
        setF_files_other _ _ _ _ (Ne.symm (bakPath_ne_base p 1)), hb]
  have hmid : ∀ i, 1 ≤ i → i < c.FdMaxLen →
      (fileBakMove c w p).files (bakPath p i) = w.files (bakPath p (i + 1)) := by
    intro i h1 h2
    rw [hmv, S2 i h1 (by omega),
        removeAll, setF_files_other _ _ _ _ (bakPath_ne p (by omega) (by omega) (by omega))]
  have htop : (fileBakMove c w p).files (bakPath p c.FdMaxLen) = none := by
    have h3 := S3
    rw [show 1 + (c.FdMaxLen - 1) = c.FdMaxLen by omega] at h3
    rw [hmv]
    exact h3
  have hhigh : ∀ i, c.FdMaxLen < i → (fileBakMove c w p).files (bakPath p i) = none := by
    intro i hgt
    rcases Nat.eq_or_lt_of_le hmax with heq | hmax2
    · rw [hmv, S4 i (by omega), removeAll,
          setF_files_other _ _ _ _ (bakPath_ne p (by omega) (by omega) (by omega))]
      exact hchain.2 i (by omega)
    · rw [hmv, S4 i (by omega), removeAll,
          setF_files_other _ _ _ _ (bakPath_ne p (by omega) (by omega) (by omega))]
      exact hchain.2 i (by omega)
  rw [hrw]
  refine ⟨?_, fun i h1 h2 => ?_, fun i hgt => ?_, ?_⟩
  · rw [renameF_files_dst _ p _ (by rw [hmrok]) (by rw [hmbase]; rfl), hmbase]
  · rw [renameF_files_other _ _ _ _ (bakPath_ne_base p i)
        (bakPath_ne p h1 (by omega) (by omega))]
    exact hmid i h1 h2
  · rw [renameF_files_other _ _ _ _ (bakPath_ne_base p i)
        (bakPath_ne p (by omega) (by omega) (by omega))]
    exact hhigh i hgt
  · exact renameF_files_src _ p _ (by rw [hmrok]) (Ne.symm (bakPath_ne_base p _))

/-- Rewriting the base file does not affect the backup chain. -/
theorem bakChain_setF_base (w : World) (p : String) (k : Nat) (v : Option Msg)
    (hchain : bakChain w p k) : bakChain (setF w p v) p k := by
  refine ⟨fun i h1 h2 => ?_, fun i hgt => ?_⟩
  · rw [setF_files_other _ _ _ _ (bakPath_ne_base p i)]
    exact hchain.1 i h1 h2
  · rw [setF_files_other _ _ _ _ (bakPath_ne_base p i)]
    exact hchain.2 i hgt

/-- One rotation grows a gap-free chain of `k ≤ FdMaxLen` backups to
`min (k+1) FdMaxLen` backups, still gap-free, and removes the base file. -/
theorem rotateStep_chain (c : Config) (w : World) (p : String) (k : Nat) (b : Msg)
    (hok : w.renameOk = true) (hmax : 1 ≤ c.FdMaxLen) (hchain : bakChain w p k)
    (hk : k ≤ c.FdMaxLen) (hb : w.files p = some b) :
    bakChain (rotateStep c w p) p (min (k + 1) c.FdMaxLen) ∧
    (rotateStep c w p).files p = none := by
  rcases Nat.lt_or_ge k c.FdMaxLen with hlt | hge
  · obtain ⟨R1, R2, R3, R4⟩ := rotateStep_notfull c w p k b hok hchain hlt hb
    rw [min_eq_left (by omega)]
    refine ⟨⟨fun i h1 h2 => ?_, fun i hgt => R3 i hgt⟩, R4⟩
    rcases Nat.lt_or_ge i (k + 1) with hik | hik
    · rw [R2 i h1 (by omega)]
      exact hchain.1 i h1 (by omega)
    · rw [show i = k + 1 by omega, R1]
      rfl
  · have hkeq : k = c.FdMaxLen := by omega
    subst hkeq
    obtain ⟨R1, R2, R3, R4⟩ := rotateStep_full c w p b hok hmax hchain hb
    rw [min_eq_right (by omega)]
    refine ⟨⟨fun i h1 h2 => ?_, fun i hgt => R3 i hgt⟩, R4⟩
    rcases Nat.lt_or_ge i c.FdMaxLen with hik | hik
    · rw [R2 i h1 hik]
      exact hchain.1 (i + 1) (by omega) (by omega)
    · rw [show i = c.FdMaxLen by omega, R1]
      rfl

/-- Any number of rotations keeps the backups a gap-free chain of at most
`FdMaxLen` files. -/
theorem runRotationsChain (c : Config) (p : String) : ∀ (bs : List Msg) (w : World) (k : Nat),
    w.renameOk = true → 1 ≤ c.FdMaxLen → bakChain w p k → k ≤ c.FdMaxLen →
    (w.files p).isSome = true →
    ∃ k', k' ≤ c.FdMaxLen ∧ bakChain (runRotations c p w bs) p k' := by
  intro bs
  induction bs with
  | nil => intro w k _ _ hchain hk _; exact ⟨k, hk, hchain⟩
  | cons b bs ih =>
    intro w k hok hmax hchain hk hbase
    obtain ⟨bb, hbb⟩ := Option.isSome_iff_exists.mp hbase
    obtain ⟨hchain', _⟩ := rotateStep_chain c w p k bb hok hmax hchain hk hbb
    rw [runRotations]
    exact ih (setF (rotateStep c w p) p (some b)) (min (k + 1) c.FdMaxLen)
      (by rw [setF_renameOk, rotateStep_renameOk]; exact hok) hmax
      (bakChain_setF_base _ _ _ _ hchain') (by omega)
      (by rw [setF_files_self]; rfl)

/-! ### Tracked-length accounting across write sequences -/

/-- Writes through an open handle below the threshold advance the tracked
length by exactly the actual byte counts: starting at `s`, a sequence with
actual counts summing (together with `s`) to at most `FdMaxSize` never
rotates and ends with `ln = s +` (sum of actual counts). -/
theorem runWrites_open_sum (c : Config) (p : String) :
    ∀ (ops : List (Msg × Nat)) (w : World) (s : Nat) (f : Msg),
    w.openOk = true → w.files p = some f →
    s + (ops.map Prod.snd).sum ≤ c.FdMaxSize →
    ∃ w', runWrites c 2 w ⟨true, s, p⟩ ops =
      some (w', ⟨true, s + (ops.map Prod.snd).sum, p⟩) := by
  intro ops
  induction ops with
  | nil =>
    intro w s f _ _ _
    exact ⟨w, by simp [runWrites]⟩
  | cons op ops ih =>
    intro w s f hook hf hsum
    obtain ⟨m, n⟩ := op
    simp only [List.map_cons, List.sum_cons] at hsum ⊢
    have hchk : fileCheckGo c w ⟨true, s, p⟩ 2 = some (.ok w ⟨true, s, p⟩) :=
      fileCheckGo_break c w ⟨true, s, p⟩ 1 rfl (show s ≤ c.FdMaxSize by omega)
    obtain ⟨w', hw'⟩ := ih (setF w p (some (f ++ m.take n))) (s + n) (f ++ m.take n)
      (by rw [setF_openOk]; exact hook) (setF_files_self w p _) (by omega)
    refine ⟨w', ?_⟩
    rw [runWrites, hchk]
    simp only [writeStep, hf]
    rw [show s + (n + (ops.map Prod.snd).sum) = s + n + (ops.map Prod.snd).sum by omega]
    simpa [Option.getD] using hw'

/-- A single write whose check rotates: the tracked length is reset by the
rotation and ends at exactly the actual count of that write. -/
theorem runWrites_rotate_reset (c : Config) (w : World) (fe : FileH) (msg : Msg)
    (n : Nat) (fuel : Nat) (hopen : fe.fdOpen = true) (hln : fe.ln > c.FdMaxSize)
    (hrok : w.renameOk = true) (hook : w.openOk = true) :
    ∃ w', runWrites c (fuel + 3) w fe [(msg, n)] = some (w', ⟨true, n, fe.path⟩) := by
  have hchk := fileCheckGo_rotate_reopen c w fe fuel hopen hln hrok hook
  refine ⟨setF (openCreate (rotateStep c w fe.path) fe.path) fe.path
    (some (((openCreate (rotateStep c w fe.path) fe.path).files fe.path).getD [] ++
      msg.take n)), ?_⟩
  rw [runWrites, hchk]
  simp [runWrites, writeStep]

/-! ### Claim theorems -/

/-- Concrete worlds and hooks used by witnesses and counterexamples. -/
def wBase2 : World := ⟨fun q => if q = "p" then some [9, 9] else none, true, true⟩

def wNoFile : World := ⟨fun _ => none, true, true⟩

/-- C3: on a write to a file-backed destination, rotation is performed if
and only if the tracked length strictly exceeds `FdMaxSize` at the start of
the write — at or below the threshold `fileCheck` returns with the
filesystem and handle untouched (no rotation), and above it the filesystem
goes through `rotateStep` and (when renames succeed, so the rename removed
the base file) the reopened base file's tracked length is 0. -/
theorem claim_c3 (c : Config) (w : World) (fe : FileH) (fuel : Nat)
    (hopen : fe.fdOpen = true) :
    (fe.ln ≤ c.FdMaxSize → fileCheckGo c w fe (fuel + 1) = some (.ok w fe)) ∧
    (fe.ln > c.FdMaxSize → w.renameOk = true → w.openOk = true →
      fileCheckGo c w fe (fuel + 3) =
        some (.ok (openCreate (rotateStep c w fe.path) fe.path)
          ⟨true, 0, fe.path⟩)) := by
  constructor
  · intro hle
    exact fileCheckGo_break c w fe fuel hopen hle
  · intro hgt hrok hook
    have h := fileCheckGo_rotate_reopen c w fe fuel hopen hgt hrok hook
    exact h

/-- Witness for C3 at `FdMaxSize = 1`: a handle at tracked length 1 is left
alone, a handle at tracked length 2 rotates and comes back with length 0. -/
theorem claim_c3_witness :
    fileCheckGo ⟨2, 1⟩ wBase2 ⟨true, 1, "p"⟩ 1 = some (.ok wBase2 ⟨true, 1, "p"⟩) ∧
    fileCheckGo ⟨2, 1⟩ wBase2 ⟨true, 2, "p"⟩ 3 =
      some (.ok (openCreate (rotateStep ⟨2, 1⟩ wBase2 "p") "p") ⟨true, 0, "p"⟩) :=
  ⟨(claim_c3 ⟨2, 1⟩ wBase2 ⟨true, 1, "p"⟩ 0 rfl).1 (by decide),
   (claim_c3 ⟨2, 1⟩ wBase2 ⟨true, 2, "p"⟩ 0 rfl).2 (by decide) rfl rfl⟩

/-- C10: ensure-open on a closed handle reads an existing base file's size
as the starting tracked length (not zero) — so a pre-existing over-sized
file triggers rotation on the first write's check — and starts at 0 when
the file does not exist. -/
theorem claim_c10 (c : Config) (w : World) (fe : FileH) (fuel : Nat)
    (hclosed : fe.fdOpen = false) (hook : w.openOk = true) :
    (w.files fe.path = none →
      fileCheckGo c w fe (fuel + 2) =
        some (.ok (openCreate w fe.path) ⟨true, 0, fe.path⟩)) ∧
    (∀ f, w.files fe.path = some f → f.length ≤ c.FdMaxSize →
      fileCheckGo c w fe (fuel + 2) = some (.ok w ⟨true, f.length, fe.path⟩)) ∧
    (∀ f, w.files fe.path = some f → f.length > c.FdMaxSize → w.renameOk = true →
      fileCheckGo c w fe (fuel + 4) =
        some (.ok (openCreate (rotateStep c w fe.path) fe.path)
          ⟨true, 0, fe.path⟩)) := by
  obtain ⟨fb, fln, fp⟩ := fe
  simp only at hclosed
  subst hclosed
  refine ⟨fun hnone => ?_, fun f hf hle => ?_, fun f hf hgt hrok => ?_⟩
  · exact fileCheckGo_open_fresh c w ⟨false, fln, fp⟩ fuel rfl hook hnone
  · rw [show fuel + 2 = (fuel + 1) + 1 by omega,
        fileCheckGo_open c w _ _ rfl hook]
    have hstat : statSize w fp = some f.length := by unfold statSize; rw [hf]; rfl
    rw [hstat, openCreate_of_present w fp (by rw [hf]; rfl)]
    exact fileCheckGo_break _ _ _ _ rfl (by simpa using hle)
  · rw [show fuel + 4 = (fuel + 3) + 1 by omega,
        fileCheckGo_open c w _ _ rfl hook]
    have hstat : statSize w fp = some f.length := by unfold statSize; rw [hf]; rfl
    rw [hstat, openCreate_of_present w fp (by rw [hf]; rfl)]
    exact fileCheckGo_rotate_reopen c w ⟨true, f.length, fp⟩ fuel rfl
      (by simpa using hgt) hrok hook

/-- Witness for C10 at `FdMaxSize = 3`: a missing file starts the tracked
length at 0; an existing 2-byte file starts it at 2. -/
theorem claim_c10_witness :
    fileCheckGo ⟨2, 3⟩ wNoFile ⟨false, 0, "p"⟩ 2 =
      some (.ok (openCreate wNoFile "p") ⟨true, 0, "p"⟩) ∧
    fileCheckGo ⟨2, 3⟩ wBase2 ⟨false, 0, "p"⟩ 2 = some (.ok wBase2 ⟨true, 2, "p"⟩) :=
  ⟨(claim_c10 ⟨2, 3⟩ wNoFile ⟨false, 0, "p"⟩ 0 rfl rfl).1 (by decide),
   (claim_c10 ⟨2, 3⟩ wBase2 ⟨false, 0, "p"⟩ 0 rfl rfl).2.1 [9, 9] (by decide) (by decide)⟩

/-- C8: when ensure-open fails on a closed handle in file mode, `Fire`
returns the open error, the registered handle is still closed (`fd` unset)
and the filesystem is untouched (the write is abandoned); and because the
handle is closed, the next call's `fileCheck` re-runs ensure-open from
scratch — shown here succeeding once opening works again. -/
theorem claim_c8 (h : Hook) (w : World) (lvl : Level) (fe : FileH)
    (fmtRes : Option Msg) (n : Nat) (werr : Bool) (fuel : Nat)
    (hw : h.writers = none) (hdw : h.hasDefaultWriter = false)
    (hp : h.paths.isSome = true ∨ h.hasDefaultPath = true)
    (hfls : h.fls lvl = some fe) (hclosed : fe.fdOpen = false)
    (hbad : w.openOk = false) :
    Fire h w lvl fmtRes n werr (fuel + 1) =
      some (.file (.fail .openErr
        (updateFls h lvl ⟨false, (statSize w fe.path).getD 0, fe.path⟩) w)) ∧
    (∀ fuel2, w.files fe.path = none →
      fileCheckGo h.cfg { w with openOk := true }
          ⟨false, (statSize w fe.path).getD 0, fe.path⟩ (fuel2 + 2) =
        some (.ok (openCreate { w with openOk := true } fe.path)
          ⟨true, 0, fe.path⟩)) := by
  obtain ⟨fb, fln, fp⟩ := fe
  simp only at hclosed
  subst hclosed
  constructor
  · rw [Fire, if_neg (by rw [hw, hdw]; simp),
        if_pos (by rcases hp with hp | hp <;> simp [hp]),
        fileWrite, hfls]
    dsimp only
    unfold fileWriteGo
    rw [fileCheckGo_openFail h.cfg w ⟨false, fln, fp⟩ fuel rfl hbad]
    rfl
  · intro fuel2 hnone
    exact fileCheckGo_open_fresh h.cfg { w with openOk := true }
      ⟨false, (statSize w fp).getD 0, fp⟩ fuel2 rfl rfl hnone

/-- Hook used by the C8 witness: file mode, level 2 mapped to path `p`,
with a closed handle already registered. -/
def hC8 : Hook :=
  { paths := some (fun l => if l = 2 then some "p" else none), writers := none,
    defaultPath := "", defaultWriter := 0, hasDefaultPath := false,
    hasDefaultWriter := false, FdMaxLen := 2, FdMaxSize := 3,
    fls := fun l => if l = 2 then some ⟨false, 0, "p"⟩ else none }

/-- World where opening files fails. -/
def wOpenFail : World := ⟨fun _ => none, true, false⟩

/-- Witness for C8: the failing call surfaces the open error with the
handle still closed and the filesystem unchanged; the retry succeeds. -/
theorem claim_c8_witness :
    Fire hC8 wOpenFail 2 (some [9]) 1 false 1 =
      some (.file (.fail .openErr
        (updateFls hC8 2 ⟨false, (statSize wOpenFail "p").getD 0, "p"⟩) wOpenFail)) ∧
    fileCheckGo hC8.cfg { wOpenFail with openOk := true }
        ⟨false, (statSize wOpenFail "p").getD 0, "p"⟩ 2 =
      some (.ok (openCreate { wOpenFail with openOk := true } "p") ⟨true, 0, "p"⟩) := by
  have h := claim_c8 hC8 wOpenFail 2 ⟨false, 0, "p"⟩ (some [9]) 1 false 0
    rfl rfl (Or.inl rfl) (by decide) rfl rfl
  exact ⟨h.1, h.2 0 rfl⟩

/-- C9: a record whose level has no map entry, with no default of either
kind configured and no cached handle, is dropped with a `nil` error result
and no state change, in every dispatch mode. -/
theorem claim_c9 (h : Hook) (w : World) (lvl : Level) (fmtRes : Option Msg)
    (n : Nat) (werr : Bool) (fuel : Nat)
    (hwm : mapGet h.writers lvl = none) (hdw : h.hasDefaultWriter = false)
    (hpm : mapGet h.paths lvl = none) (hdp : h.hasDefaultPath = false)
    (hfls : h.fls lvl = none) :
    Fire h w lvl fmtRes n werr fuel = some (.io (.ok none)) ∨
    Fire h w lvl fmtRes n werr fuel = some (.file (.ok h w)) ∨
    Fire h w lvl fmtRes n werr fuel = some .nilRes := by
  rw [Fire]
  rcases hb : h.writers.isSome || h.hasDefaultWriter with hv | hv
  · rw [if_neg (by simp [hb])]
    rcases hb2 : h.paths.isSome || h.hasDefaultPath with hv2 | hv2
    · rw [if_neg (by simp [hb2])]
      right; right; rfl
    · rw [if_pos (by simp [hb2])]
      right; left
      rw [fileWrite, hfls, hpm, hdp]
      rfl
  · rw [if_pos (by simp [hb])]
    left
    rw [ioWrite, hwm, hdw]
    rfl

/-- Hook used by the C9 witness: a path map with only level 2, no defaults. -/
def hC9 : Hook :=
  { paths := some (fun l => if l = 2 then some "p" else none), writers := none,
    defaultPath := "", defaultWriter := 0, hasDefaultPath := false,
    hasDefaultWriter := false, FdMaxLen := 2, FdMaxSize := 3, fls := fun _ => none }

/-- Witness for C9 at level 5 (unmapped): `Fire` returns `nil` having done
nothing. -/
theorem claim_c9_witness :
    Fire hC9 wNoFile 5 (some [9]) 1 false 4 = some (.io (.ok none)) ∨
    Fire hC9 wNoFile 5 (some [9]) 1 false 4 = some (.file (.ok hC9 wNoFile)) ∨
    Fire hC9 wNoFile 5 (some [9]) 1 false 4 = some .nilRes :=
  claim_c9 hC9 wNoFile 5 (some [9]) 1 false 4 rfl rfl (by decide) rfl rfl

/-- World with a pre-existing 1-byte base file at `p`. -/
def wPre1 : World := ⟨fun q => if q = "p" then some [7] else none, true, true⟩

/-- Counterexample to C5 as stated: a handle created over a pre-existing
1-byte file, one write of actual count 1, no rotation anywhere — the
tracked length ends at 2 (ensure-open started it at the pre-existing size),
not at the sum 1 of the byte counts written through the handle. -/
theorem claim_c5_counterexample :
    runLn (runWrites ⟨10, 100⟩ 2 wPre1 ⟨false, 0, "p"⟩ [([5], 1)]) = some 2 ∧
    ([([5], 1)].map Prod.snd).sum ≠ 2 := by decide

/-- C5 amended: the tracked length after a sequence of writes equals its
value at ensure-open plus the sum of the byte counts actually written
(`n`, not the requested `msg.length`); the baseline is 0 — giving the bare
sum of the claim — exactly when the base file was absent when the handle
was opened, or after a rotation reset.  The three parts:
baseline accounting, the fresh-file case, and the rotation reset. -/
theorem claim_c5_amended :
    (∀ (c : Config) (p : String) (ops : List (Msg × Nat)) (w : World) (f : Msg) (s : Nat),
      w.openOk = true → w.files p = some f →
      s + (ops.map Prod.snd).sum ≤ c.FdMaxSize →
      ∃ w', runWrites c 2 w ⟨true, s, p⟩ ops =
        some (w', ⟨true, s + (ops.map Prod.snd).sum, p⟩)) ∧
    (∀ (c : Config) (p : String) (ops : List (Msg × Nat)) (w : World),
      w.openOk = true → w.files p = none →
      (ops.map Prod.snd).sum ≤ c.FdMaxSize →
      ∃ w' fe', runWrites c 2 w ⟨false, 0, p⟩ ops = some (w', fe') ∧
        fe'.ln = (ops.map Prod.snd).sum ∧ fe'.path = p) ∧
    (∀ (c : Config) (w : World) (fe : FileH) (msg : Msg) (n fuel : Nat),
      fe.fdOpen = true → fe.ln > c.FdMaxSize → w.renameOk = true → w.openOk = true →
      ∃ w', runWrites c (fuel + 3) w fe [(msg, n)] = some (w', ⟨true, n, fe.path⟩)) := by
  refine ⟨fun c p ops w f s hook hf hsum => runWrites_open_sum c p ops w s f hook hf hsum,
    fun c p ops w hook hnone hsum => ?_,
    fun c w fe msg n fuel h1 h2 h3 h4 => runWrites_rotate_reset c w fe msg n fuel h1 h2 h3 h4⟩
  cases ops with
  | nil => exact ⟨w, ⟨false, 0, p⟩, rfl, rfl, rfl⟩
  | cons op ops =>
    obtain ⟨m, n⟩ := op
    simp only [List.map_cons, List.sum_cons] at hsum ⊢
    have hchk := fileCheckGo_open_fresh c w ⟨false, 0, p⟩ 0 rfl hook hnone
    obtain ⟨w', hw'⟩ := runWrites_open_sum c p ops
      (setF (openCreate w p) p (some (((openCreate w p).files p).getD [] ++ m.take n))) n
      (((openCreate w p).files p).getD [] ++ m.take n)
      (by simp [hook]) (setF_files_self _ _ _) (by omega)
    refine ⟨w', ⟨true, n + (ops.map Prod.snd).sum, p⟩, ?_, rfl, rfl⟩
    rw [runWrites, hchk]
    simp only [writeStep]
    rw [show (0 : Nat) + n = n from Nat.zero_add n]
    exact hw'

/-- Witness for the amended C5: two writes of actual counts 2 and 1 onto an
absent file end with tracked length 3 = 2 + 1. -/
theorem claim_c5_amended_witness :
    ∃ w' fe', runWrites ⟨10, 100⟩ 2 wNoFile ⟨false, 0, "p"⟩ [([5, 6], 2), ([7], 1)] =
      some (w', fe') ∧
      fe'.ln = ([([5, 6], 2), ([7], 1)].map Prod.snd).sum ∧ fe'.path = "p" :=
  claim_c5_amended.2.1 ⟨10, 100⟩ "p" [([5, 6], 2), ([7], 1)] wNoFile rfl rfl (by decide)

/-- File-mode hook with level 2 mapped to path `a` and an empty registry. -/
def hC2 : Hook :=
  { paths := some (fun l => if l = 2 then some "a" else none), writers := none,
    defaultPath := "", defaultWriter := 0, hasDefaultPath := false,
    hasDefaultWriter := false, FdMaxLen := 10, FdMaxSize := 100, fls := fun _ => none }

/-- Counterexample to C2 as stated: a file-mode `Fire` whose `fd.Write`
call fails (`werr = true`, 0 bytes written) still completes and returns
`nil` — the write error is not surfaced. -/
theorem claim_c2_counterexample :
    fireErr (Fire hC2 wNoFile 2 (some [9]) 0 true 4) = none ∧
    fireDone (Fire hC2 wNoFile 2 (some [9]) 0 true 4) = true := by decide

/-- C2 amended: in file mode the write error is discarded — after a
successful `fileCheck` and a successful format, `Fire` returns `nil`
whatever the write call's error flag, advancing the tracked length by the
actual byte count only (`n, _ := fe.fd.Write(msg)`). -/
theorem claim_c2_amended (h : Hook) (w : World) (lvl : Level) (fe : FileH)
    (msg : Msg) (n : Nat) (werr : Bool) (fuel : Nat)
    (hw : h.writers = none) (hdw : h.hasDefaultWriter = false)
    (hp : h.paths.isSome = true ∨ h.hasDefaultPath = true)
    (hfls : h.fls lvl = some fe) (w' : World) (fe' : FileH)
    (hchk : fileCheckGo h.cfg w fe fuel = some (.ok w' fe')) :
    Fire h w lvl (some msg) n werr fuel =
      some (.file (.ok (updateFls h lvl ⟨fe'.fdOpen, fe'.ln + n, fe'.path⟩)
        (setF w' fe'.path (some ((w'.files fe'.path).getD [] ++ msg.take n))))) := by
  rw [Fire, if_neg (by rw [hw, hdw]; simp),
      if_pos (by rcases hp with hp | hp <;> simp [hp]),
      fileWrite, hfls]
  dsimp only
  unfold fileWriteGo
  rw [hchk]
  rfl

/-- The hook `hC2` with a closed handle for level 2 already registered. -/
def hC2r : Hook :=
  { hC2 with fls := fun l => if l = 2 then some ⟨false, 0, "a"⟩ else none }

/-- Witness for the amended C2: a failing write call (`werr = true`) that
actually wrote 1 of 2 bytes — `Fire` returns `nil` and tracks 1 byte. -/
theorem claim_c2_amended_witness :
    Fire hC2r wNoFile 2 (some [9, 8]) 1 true 2 =
      some (.file (.ok (updateFls hC2r 2 ⟨true, 0 + 1, "a"⟩)
        (setF (openCreate wNoFile "a") "a"
          (some (((openCreate wNoFile "a").files "a").getD [] ++ [9, 8].take 1))))) :=
  claim_c2_amended hC2r wNoFile 2 ⟨false, 0, "a"⟩ [9, 8] 1 true 2 rfl rfl
    (Or.inl rfl) rfl (openCreate wNoFile "a") ⟨true, 0, "a"⟩ (by rfl)

/-- World for the divergence scenario: the base file at `p` holds 2 bytes
(over the 1-byte threshold) and every rename fails, leaving it in place. -/
def wC6 : World := ⟨fun q => if q = "p" then some [0, 0] else none, false, true⟩

/-- The two-state cycle of the diverging `fileCheck` run: from the open
over-sized handle the loop rotates (all renames fail, so the filesystem is
unchanged), reopens, and is back where it started. -/
theorem c6_cycle : ∀ fuel, fileCheckGo ⟨2, 1⟩ wC6 ⟨true, 2, "p"⟩ fuel = none := by
  intro fuel
  induction fuel using Nat.strong_induction_on with
  | _ fuel ih =>
    rcases fuel with _ | _ | n
    · rfl
    · rfl
    · exact ih n (by omega)

/-- C6: the `fileCheck` loop does NOT terminate for every filesystem
outcome — with a 2-byte base file over a 1-byte threshold and renames that
persistently fail (leaving the over-sized file in place), the loop
alternates rotate and reopen forever: it returns `none` for every fuel. -/
theorem claim_c6 : divergesCheck ⟨2, 1⟩ wC6 ⟨false, 0, "p"⟩ := by
  intro fuel
  rcases fuel with _ | n
  · rfl
  · exact c6_cycle n

/-- World for the C1 counterexample: a 1-byte base file `[1]` at `p`, no
backups yet, all filesystem calls succeeding. -/
def wC1 : World := ⟨fun q => if q = "p" then some [1] else none, true, true⟩

/-- Counterexample to C1 as stated: after rotating `[1]` and then `[2]`
(threshold 1 byte, cap 2 backups), suffix 1 holds the FIRST rotated content
`[1]` — not the most recently rotated `[2]`, which sits at suffix 2.  The
code fills suffixes upward, so suffix 1 is the oldest backup, not the
newest. -/
theorem claim_c1_counterexample :
    (runRotations ⟨2, 1⟩ "p" wC1 [[2], [3]]).files (bakPath "p" 1) = some [1] ∧
    (runRotations ⟨2, 1⟩ "p" wC1 [[2], [3]]).files (bakPath "p" 2) = some [2] ∧
    (runRotations ⟨2, 1⟩ "p" wC1 [[2], [3]]).files (bakPath "p" 1) ≠ some [2] := by
  decide

/-- C1 amended: while the chain holds `k < MaxBackups` backups, a rotation
renames the base file to suffix `k+1` — the lowest free suffix — leaving
existing backups in place, so the newest backup sits at the highest
occupied suffix and suffix 1 is the oldest; once the chain is full, suffix
1 (the oldest) is deleted, the content at each suffix `i+1` shifts down to
`i`, and the rotated base file lands at suffix `MaxBackups`. -/
theorem claim_c1_amended :
    (∀ (c : Config) (w : World) (p : String) (k : Nat) (b : Msg),
      w.renameOk = true → bakChain w p k → k < c.FdMaxLen → w.files p = some b →
      (rotateStep c w p).files (bakPath p (k + 1)) = some b ∧
      ∀ i, 1 ≤ i → i ≤ k →
        (rotateStep c w p).files (bakPath p i) = w.files (bakPath p i)) ∧
    (∀ (c : Config) (w : World) (p : String) (b : Msg),
      w.renameOk = true → 1 ≤ c.FdMaxLen → bakChain w p c.FdMaxLen →
      w.files p = some b →
      (rotateStep c w p).files (bakPath p c.FdMaxLen) = some b ∧
      ∀ i, 1 ≤ i → i < c.FdMaxLen →
        (rotateStep c w p).files (bakPath p i) = w.files (bakPath p (i + 1))) := by
  constructor
  · intro c w p k b hok hchain hklt hb
    obtain ⟨R1, R2, _, _⟩ := rotateStep_notfull c w p k b hok hchain hklt hb
    exact ⟨R1, R2⟩
  · intro c w p b hok hmax hchain hb
    obtain ⟨R1, R2, _, _⟩ := rotateStep_full c w p b hok hmax hchain hb
    exact ⟨R1, R2⟩

/-- World with a full 2-backup chain: base `[3]`, `p.1` = `[1]`,
`p.2` = `[2]`. -/
def wFull : World :=
  ⟨fun q =>
    if q = "p" then some [3]
    else if q = bakPath "p" 1 then some [1]
    else if q = bakPath "p" 2 then some [2]
    else none, true, true⟩

theorem wC1_chain : bakChain wC1 "p" 0 :=
  ⟨fun i h1 h2 => by omega, fun i _ => by
    show (if bakPath "p" i = "p" then some [1] else none) = none
    rw [if_neg (bakPath_ne_base "p" i)]⟩

theorem wFull_chain : bakChain wFull "p" 2 := by
  constructor
  · intro i h1 h2
    rcases (show i = 1 ∨ i = 2 by omega) with rfl | rfl
    · decide
    · decide
  · intro i hi
    show (if bakPath "p" i = "p" then some [3]
      else if bakPath "p" i = bakPath "p" 1 then some [1]
      else if bakPath "p" i = bakPath "p" 2 then some [2]
      else none) = none
    rw [if_neg (bakPath_ne_base "p" i),
        if_neg (bakPath_ne "p" (by omega) (by omega) (by omega)),
        if_neg (bakPath_ne "p" (by omega) (by omega) (by omega))]

/-- Witness for the amended C1: the first rotation of `wC1` goes to suffix
1; a rotation of the full chain `wFull` lands at suffix 2 and shifts the
old suffix-2 content down to suffix 1. -/
theorem claim_c1_amended_witness :
    ((rotateStep ⟨2, 1⟩ wC1 "p").files (bakPath "p" 1) = some [1] ∧
      ∀ i, 1 ≤ i → i ≤ 0 →
        (rotateStep ⟨2, 1⟩ wC1 "p").files (bakPath "p" i) = wC1.files (bakPath "p" i)) ∧
    ((rotateStep ⟨2, 1⟩ wFull "p").files (bakPath "p" 2) = some [3] ∧
      ∀ i, 1 ≤ i → i < 2 →
        (rotateStep ⟨2, 1⟩ wFull "p").files (bakPath "p" i) = wFull.files (bakPath "p" (i + 1))) :=
  ⟨claim_c1_amended.1 ⟨2, 1⟩ wC1 "p" 0 [1] rfl wC1_chain (by decide) rfl,
   claim_c1_amended.2 ⟨2, 1⟩ wFull "p" [3] rfl (by decide) wFull_chain rfl⟩

/-- C4: starting from a gap-free chain of at most `FdMaxLen` backups (in
particular from no backups at all), any number of rotations leaves a
gap-free chain of at most `FdMaxLen` backups — no suffix beyond the cap is
ever occupied; and once the chain is full, a rotation evicts the oldest
backup (suffix 1), shifting each remaining backup down one suffix, before
the base file is renamed into the top of the chain. -/
theorem claim_c4 :
    (∀ (c : Config) (p : String) (bs : List Msg) (w : World) (k : Nat),
      w.renameOk = true → 1 ≤ c.FdMaxLen → bakChain w p k → k ≤ c.FdMaxLen →
      (w.files p).isSome = true →
      ∃ k', k' ≤ c.FdMaxLen ∧ bakChain (runRotations c p w bs) p k') ∧
    (∀ (c : Config) (w : World) (p : String) (b : Msg),
      w.renameOk = true → 1 ≤ c.FdMaxLen → bakChain w p c.FdMaxLen →
      w.files p = some b →
      (∀ i, 1 ≤ i → i < c.FdMaxLen →
        (rotateStep c w p).files (bakPath p i) = w.files (bakPath p (i + 1))) ∧
      (rotateStep c w p).files (bakPath p c.FdMaxLen) = some b ∧
      (∀ i, c.FdMaxLen < i → (rotateStep c w p).files (bakPath p i) = none)) := by
  constructor
  · exact fun c p bs w k h1 h2 h3 h4 h5 => runRotationsChain c p bs w k h1 h2 h3 h4 h5
  · intro c w p b hok hmax hchain hb
    obtain ⟨R1, R2, R3, _⟩ := rotateStep_full c w p b hok hmax hchain hb
    exact ⟨R2, R1, R3⟩

/-- Witness for C4: three rotations under a cap of 2 leave a chain of at
most 2 backups; rotating the full chain `wFull` shifts suffix 2 down to 1
and lands the base content at suffix 2. -/
theorem claim_c4_witness :
    (∃ k', k' ≤ 2 ∧ bakChain (runRotations ⟨2, 1⟩ "p" wC1 [[2], [3], [4]]) "p" k') ∧
    ((∀ i, 1 ≤ i → i < 2 →
        (rotateStep ⟨2, 1⟩ wFull "p").files (bakPath "p" i) = wFull.files (bakPath "p" (i + 1))) ∧
      (rotateStep ⟨2, 1⟩ wFull "p").files (bakPath "p" 2) = some [3] ∧
      (∀ i, 2 < i → (rotateStep ⟨2, 1⟩ wFull "p").files (bakPath "p" i) = none)) :=
  ⟨claim_c4.1 ⟨2, 1⟩ "p" [[2], [3], [4]] wC1 0 rfl (by decide) wC1_chain (by decide) rfl,
   claim_c4.2 ⟨2, 1⟩ wFull "p" [3] rfl (by decide) wFull_chain rfl⟩

/-- A hook built in path mode and then given a default writer at runtime:
both a path configuration and a writer configuration are active. -/
def hC7 : Hook :=
  SetDefaultWriter (NewLfsHook (.pmap (fun l => if l = 2 then some "a" else none)) []) 7

/-- Counterexample to C7 as stated: `hC7` is reachable through the exported
API, yet both path-mode and sink-mode are active on it — and `Fire`
dispatches the (path-mapped) level 2 to the default writer while the path
configuration is still in place.  Selecting sink-mode does not disable
path-mode, nor conversely. -/
theorem claim_c7_counterexample :
    Reachable hC7 ∧ pathModeActive hC7 ∧ sinkModeActive hC7 ∧
    ¬ exactlyOneMode hC7 ∧
    Fire hC7 wNoFile 2 (some [9]) 1 false 4 = some (.io (.ok (some (7, [9])))) := by
  refine ⟨Reachable.setWriter 7 (Reachable.new _ _), Or.inl rfl, Or.inr rfl, ?_, rfl⟩
  intro hone
  rcases hone with ⟨_, hns⟩ | ⟨_, hnp⟩
  · exact hns (Or.inr rfl)
  · exact hnp (Or.inl rfl)

/-- The `maxsz` guards touch only `FdMaxSize` and `FdMaxLen`. -/
theorem applyMaxsz_modes (h : Hook) (maxsz : List Int) :
    (applyMaxsz h maxsz).paths = h.paths ∧ (applyMaxsz h maxsz).writers = h.writers ∧
    (applyMaxsz h maxsz).hasDefaultPath = h.hasDefaultPath ∧
    (applyMaxsz h maxsz).hasDefaultWriter = h.hasDefaultWriter := by
  have hs : ∀ (h2 : Hook) (mv : Option Int), (applySize h2 mv).paths = h2.paths ∧
      (applySize h2 mv).writers = h2.writers ∧
      (applySize h2 mv).hasDefaultPath = h2.hasDefaultPath ∧
      (applySize h2 mv).hasDefaultWriter = h2.hasDefaultWriter := by
    intro h2 mv
    rcases mv with _ | v
    · exact ⟨rfl, rfl, rfl, rfl⟩
    · rw [applySize]
      split <;> exact ⟨rfl, rfl, rfl, rfl⟩
  have hl : ∀ (h2 : Hook) (mv : Option Int), (applyLen h2 mv).paths = h2.paths ∧
      (applyLen h2 mv).writers = h2.writers ∧
      (applyLen h2 mv).hasDefaultPath = h2.hasDefaultPath ∧
      (applyLen h2 mv).hasDefaultWriter = h2.hasDefaultWriter := by
    intro h2 mv
    rcases mv with _ | v
    · exact ⟨rfl, rfl, rfl, rfl⟩
    · rw [applyLen]
      split <;> exact ⟨rfl, rfl, rfl, rfl⟩
  unfold applyMaxsz
  obtain ⟨l1, l2, l3, l4⟩ := hl (applySize h (maxsz.get? 0)) (maxsz.get? 1)
  obtain ⟨s1, s2, s3, s4⟩ := hs h (maxsz.get? 0)
  exact ⟨l1.trans s1, l2.trans s2, l3.trans s3, l4.trans s4⟩

/-- C7 amended: construction alone does establish exactly one mode — every
`NewLfsHook` result is either purely path-configured or purely
writer-configured; but the runtime setters do not disable the other mode,
and whenever any writer configuration is present `Fire` dispatches through
`ioWrite` (writers take strict priority), never touching the path machinery
even if path configuration is also active. -/
theorem claim_c7_amended :
    (∀ (out : Output) (maxsz : List Int), exactlyOneMode (NewLfsHook out maxsz)) ∧
    (∀ (h : Hook) (w : World) (lvl : Level) (fmtRes : Option Msg) (n : Nat)
      (werr : Bool) (fuel : Nat),
      h.writers.isSome = true ∨ h.hasDefaultWriter = true →
      Fire h w lvl fmtRes n werr fuel = some (.io (ioWrite h lvl fmtRes werr))) := by
  constructor
  · intro out maxsz
    obtain ⟨hp, hw, hdp, hdw⟩ := applyMaxsz_modes emptyHook maxsz
    cases out with
    | str s =>
      left
      refine ⟨Or.inr rfl, fun hs => ?_⟩
      rcases hs with hs | hs
      · have h2 : (applyMaxsz emptyHook maxsz).writers.isSome = true := hs
        rw [hw] at h2
        simp [emptyHook] at h2
      · have h2 : (applyMaxsz emptyHook maxsz).hasDefaultWriter = true := hs
        rw [hdw] at h2
        simp [emptyHook] at h2
    | wr s =>
      right
      refine ⟨Or.inr rfl, fun hs => ?_⟩
      rcases hs with hs | hs
      · have h2 : (applyMaxsz emptyHook maxsz).paths.isSome = true := hs
        rw [hp] at h2
        simp [emptyHook] at h2
      · have h2 : (applyMaxsz emptyHook maxsz).hasDefaultPath = true := hs
        rw [hdp] at h2
        simp [emptyHook] at h2
    | pmap m =>
      left
      refine ⟨Or.inl rfl, fun hs => ?_⟩
      rcases hs with hs | hs
      · have h2 : (applyMaxsz emptyHook maxsz).writers.isSome = true := hs
        rw [hw] at h2
        simp [emptyHook] at h2
      · have h2 : (applyMaxsz emptyHook maxsz).hasDefaultWriter = true := hs
        rw [hdw] at h2
        simp [emptyHook] at h2
    | wmap m =>
      right
      refine ⟨Or.inl rfl, fun hs => ?_⟩
      rcases hs with hs | hs
      · have h2 : (applyMaxsz emptyHook maxsz).paths.isSome = true := hs
        rw [hp] at h2
        simp [emptyHook] at h2
      · have h2 : (applyMaxsz emptyHook maxsz).hasDefaultPath = true := hs
        rw [hdp] at h2
        simp [emptyHook] at h2
  · intro h w lvl fmtRes n werr fuel hs
    rw [Fire, if_pos (by rcases hs with hs | hs <;> simp [hs])]

/-- Witness for the amended C7: a path-constructed hook is single-mode, and
`hC7` (which has a default writer) dispatches through `ioWrite`. -/
theorem claim_c7_amended_witness :
    exactlyOneMode (NewLfsHook (.str "a") []) ∧
    Fire hC7 wNoFile 2 (some [9]) 1 false 4 =
      some (.io (ioWrite hC7 2 (some [9]) false)) :=
  ⟨claim_c7_amended.1 (.str "a") [],
   claim_c7_amended.2 hC7 wNoFile 2 (some [9]) 1 false 4 (Or.inr rfl)⟩

end Lfshook
